import Mathlib

/-!
Shallow embedding of `src/utils/hyperpoint.rs`: points on the Minkowski
hyperboloid model (`Hyperpoint`), wall segments (`HyperWall`), the
Poincare-disk conversion, the isometries `rotate` and `translate`, and the
distance / ordering operations.

`f64` values are modelled as real numbers; where the code can produce a NaN
(the `acosh` intrinsic on an argument below 1, and everything downstream of
it), the value is modelled as `Option ℝ` with `none` standing for NaN,
matching Rust `f64` semantics for `min`, `==` and `partial_cmp`.
A Rust panic (`unwrap` on `None`, `todo!()`) is modelled as a `none` result
of the whole operation.
-/

noncomputable section

open Classical

/-- Embedding of a point on the Minkowski hyperboloid model:
wrapper for nalgebra's `Point3<f64>`, with `f64` modelled as `ℝ`. -/
@[ext]
structure Hyperpoint where
  x : ℝ
  y : ℝ
  z : ℝ

/-- Modelled from the spec: the opaque color value type (`RGBColor`, whose
source `color.rs` is not in the sources); it is carried through unchanged
and no operation on it is required. -/
structure RGBColor where
  r : ℕ
  g : ℕ
  b : ℕ

/-- Modelled from the spec: the external Poincare-disk point type
(`PoincarePoint`, whose source `poincarepoint.rs` is not in the sources):
two real coordinates `(u, v)`. -/
structure PoincarePoint where
  u : ℝ
  v : ℝ

/-- Modelled from the spec: the bilinear-form helper of the external
Poincare point type; on a point paired with itself it yields the squared
Euclidean norm `u^2 + v^2` (the normalization term of the conversion). -/
def PoincarePoint.minkowski_dot (a b : PoincarePoint) : ℝ :=
  a.u * b.u + a.v * b.v

/-- Embedding of nalgebra's `Matrix3<f64>`, built row-major by
`Matrix3::new(m11, m12, m13, m21, m22, m23, m31, m32, m33)`. -/
structure Matrix3 where
  m11 : ℝ
  m12 : ℝ
  m13 : ℝ
  m21 : ℝ
  m22 : ℝ
  m23 : ℝ
  m31 : ℝ
  m32 : ℝ
  m33 : ℝ

/-- Matrix-matrix product, as nalgebra's `translation1 * translation2`. -/
def Matrix3.mul (A B : Matrix3) : Matrix3 where
  m11 := A.m11 * B.m11 + A.m12 * B.m21 + A.m13 * B.m31
  m12 := A.m11 * B.m12 + A.m12 * B.m22 + A.m13 * B.m32
  m13 := A.m11 * B.m13 + A.m12 * B.m23 + A.m13 * B.m33
  m21 := A.m21 * B.m11 + A.m22 * B.m21 + A.m23 * B.m31
  m22 := A.m21 * B.m12 + A.m22 * B.m22 + A.m23 * B.m32
  m23 := A.m21 * B.m13 + A.m22 * B.m23 + A.m23 * B.m33
  m31 := A.m31 * B.m11 + A.m32 * B.m21 + A.m33 * B.m31
  m32 := A.m31 * B.m12 + A.m32 * B.m22 + A.m33 * B.m32
  m33 := A.m31 * B.m13 + A.m32 * B.m23 + A.m33 * B.m33

/-- Matrix-point product, as nalgebra's `matrix * point` /
`transform_point` for a linear (no-translation-column) transform. -/
def Matrix3.apply (A : Matrix3) (p : Hyperpoint) : Hyperpoint where
  x := A.m11 * p.x + A.m12 * p.y + A.m13 * p.z
  y := A.m21 * p.x + A.m22 * p.y + A.m23 * p.z
  z := A.m31 * p.x + A.m32 * p.y + A.m33 * p.z

/-- Embeds `Hyperpoint::new_with_z`: constructs the point given all
coordinates, without checking that it lies on the hyperboloid. -/
def Hyperpoint.new_with_z (x y z : ℝ) : Hyperpoint :=
  ⟨x, y, z⟩

/-- Embeds `Hyperpoint::new`: constructs the point given `x` and `y`,
with `z = (1 + x^2 + y^2).sqrt()` so it lies on the hyperboloid. -/
def Hyperpoint.new (x y : ℝ) : Hyperpoint :=
  ⟨x, y, Real.sqrt (1 + x ^ 2 + y ^ 2)⟩

/-- Embeds `Hyperpoint::rotate`: rotation around the z axis at the origin,
`Rotation3::from_axis_angle` for the (already unit) axis `(0, 0, 1)`.
The in-place mutation is modelled as a pure function returning the new
point. -/
def Hyperpoint.rotate (p : Hyperpoint) (angle : ℝ) : Hyperpoint :=
  let rot : Matrix3 :=
    ⟨Real.cos angle, -Real.sin angle, 0,
     Real.sin angle, Real.cos angle, 0,
     0, 0, 1⟩
  rot.apply p

/-- Embeds `Hyperpoint::translate`: builds the two boost matrices from
`cosh`/`sinh` of `x` and of `-y`, multiplies them (`translation1 *
translation2`) and applies the product to the point. The in-place mutation
is modelled as a pure function returning the new point. -/
def Hyperpoint.translate (p : Hyperpoint) (x y : ℝ) : Hyperpoint :=
  let coshb := Real.cosh x
  let sinhb := Real.sinh x
  let coshy := Real.cosh (-y)
  let sinhy := Real.sinh (-y)
  let translation1 : Matrix3 := ⟨coshb, 0, sinhb, 0, 1, 0, sinhb, 0, coshb⟩
  let translation2 : Matrix3 := ⟨1, 0, 0, 0, coshy, sinhy, 0, sinhy, coshy⟩
  let translation := translation1.mul translation2
  translation.apply p

/-- Embeds `Point::minkowski_dot` for `Hyperpoint`:
`a.0[0]*b.0[0] + a.0[1]*b.0[1] - a.0[2]*b.0[2]`. -/
def Hyperpoint.minkowski_dot (a b : Hyperpoint) : ℝ :=
  a.x * b.x + a.y * b.y - a.z * b.z

/-- Models the `f64::acosh` intrinsic: NaN (here `none`) for an argument
below 1, and the real inverse hyperbolic cosine
`log (t + (t^2 - 1).sqrt())` on the domain `1 ≤ t`. -/
def acosh64 (t : ℝ) : Option ℝ :=
  if 1 ≤ t then some (Real.log (t + Real.sqrt (t ^ 2 - 1))) else none

/-- Embeds `Point::distance_to_origin` for `Hyperpoint`:
`self.0[2].acosh()`. -/
def Hyperpoint.distance_to_origin (p : Hyperpoint) : Option ℝ :=
  acosh64 p.z

/-- Embeds `Point::new_at_origin` for `Hyperpoint`: the point (0, 0, 1). -/
def Hyperpoint.new_at_origin : Hyperpoint :=
  Hyperpoint.new_with_z 0 0 1

/-- The argument handed to `acosh` inside `Point::distance_to`:
`self.0[2]*to.0[2] - self.0[1]*to.0[1] - self.0[0]*to.0[0]`. -/
def Hyperpoint.distanceArg (a b : Hyperpoint) : ℝ :=
  a.z * b.z - a.y * b.y - a.x * b.x

/-- Embeds `Point::distance_to` for `Hyperpoint`:
`(self.0[2]*to.0[2] - self.0[1]*to.0[1] - self.0[0]*to.0[0]).acosh()`. -/
def Hyperpoint.distance_to (a b : Hyperpoint) : Option ℝ :=
  acosh64 (Hyperpoint.distanceArg a b)

/-- Embeds `From<PoincarePoint> for Hyperpoint`: with
`norm_squared = minkowski_dot(p, p)`, the hyperboloid point is
`new_with_z (2u/(1-n), 2v/(1-n), (1+n)/(1-n))`. -/
def Hyperpoint.fromPoincare (p : PoincarePoint) : Hyperpoint :=
  let norm_squared := PoincarePoint.minkowski_dot p p
  Hyperpoint.new_with_z
    (p.u * 2 / (1 - norm_squared))
    (p.v * 2 / (1 - norm_squared))
    ((1 + norm_squared) / (1 - norm_squared))

/-- Embedding of the wall segment `HyperWall`: two endpoints and a color. -/
structure HyperWall where
  beginning : Hyperpoint
  hEnd : Hyperpoint
  color : RGBColor

/-- Models Rust `f64::min` on possibly-NaN values: if one operand is NaN
the other is returned; NaN only when both are. -/
def f64min : Option ℝ → Option ℝ → Option ℝ
  | none, b => b
  | some a, none => some a
  | some a, some b => some (min a b)

/-- Models `f64` `==` (`PartialEq`): NaN compares unequal to everything,
itself included. -/
def f64eq : Option ℝ → Option ℝ → Bool
  | some a, some b => if a = b then true else false
  | _, _ => false

/-- The ordering Rust `f64::partial_cmp` yields on two non-NaN values:
`Less` / `Equal` / `Greater` by numeric comparison. -/
def fcmp (a b : ℝ) : Ordering :=
  if a < b then Ordering.lt else if a = b then Ordering.eq else Ordering.gt

/-- Models `f64::partial_cmp`: `None` when either operand is NaN,
otherwise `Some` of the numeric ordering. -/
def f64pcmp : Option ℝ → Option ℝ → Option Ordering
  | some a, some b => some (fcmp a b)
  | _, _ => none

/-- Embeds `Wall::distance_to_closest_point` for `HyperWall`:
`dist_a.min(dist_b)` of the endpoint distances to the origin. -/
def HyperWall.distance_to_closest_point (w : HyperWall) : Option ℝ :=
  let dist_a := w.beginning.distance_to_origin
  let dist_b := w.hEnd.distance_to_origin
  f64min dist_a dist_b

/-- Embeds `Wall::intersection` for `HyperWall`: the body is `todo!()`,
which panics unconditionally; the panic is modelled as the outer `none`
(an inner `some v` would model a normal return of `Some(v)`/`None`). -/
def HyperWall.intersection (_w : HyperWall) (_angle : ℝ) :
    Option (Option ℝ) :=
  none

/-- Embeds `PartialEq for HyperWall::eq`: float equality of the two
`distance_to_closest_point()` keys. -/
def HyperWall.beq (a b : HyperWall) : Bool :=
  f64eq a.distance_to_closest_point b.distance_to_closest_point

/-- Embeds `PartialOrd for HyperWall::partial_cmp`: `f64::partial_cmp` of
the two `distance_to_closest_point()` keys. -/
def HyperWall.pcmp (a b : HyperWall) : Option Ordering :=
  f64pcmp a.distance_to_closest_point b.distance_to_closest_point

/-- Embeds `Ord for HyperWall::cmp`: `self.partial_cmp(other).unwrap()`.
The panic of `unwrap` on `None` is modelled by the `none` result. -/
def HyperWall.cmp (a b : HyperWall) : Option Ordering :=
  HyperWall.pcmp a b

/-- The x-boost matrix of the spec's claim, by parameter `t`: mixes the
`x` and `z` coordinates by `cosh t` / `sinh t`. -/
def xboostMat (t : ℝ) : Matrix3 :=
  ⟨Real.cosh t, 0, Real.sinh t, 0, 1, 0, Real.sinh t, 0, Real.cosh t⟩

/-- The y-boost matrix of the spec's claim, by parameter `t`: mixes the
`y` and `z` coordinates by `cosh t` / `sinh t`. -/
def yboostMat (t : ℝ) : Matrix3 :=
  ⟨1, 0, 0, 0, Real.cosh t, Real.sinh t, 0, Real.sinh t, Real.cosh t⟩

/-- A wall whose two endpoints both sit at the origin (0, 0, 1). -/
def wallO : HyperWall :=
  ⟨Hyperpoint.new_with_z 0 0 1, Hyperpoint.new_with_z 0 0 1, ⟨255, 0, 0⟩⟩

/-- A wall with endpoints different from `wallO` (and a different color)
whose `z` coordinates are still 1, so its distance key is the same. -/
def wallO2 : HyperWall :=
  ⟨Hyperpoint.new_with_z 5 7 1, Hyperpoint.new_with_z 2 3 1, ⟨0, 0, 255⟩⟩

/-- A wall whose endpoints are malformed (z = 0 < 1), so both endpoint
distances, and hence the distance key, are NaN. -/
def wallNaN : HyperWall :=
  ⟨Hyperpoint.new_with_z 0 0 0, Hyperpoint.new_with_z 0 0 0, ⟨0, 0, 0⟩⟩

theorem acosh64_one : acosh64 1 = some 0 := by
  unfold acosh64
  rw [if_pos le_rfl]
  norm_num [Real.sqrt_zero, Real.log_one]

theorem acosh64_of_lt_one {t : ℝ} (h : t < 1) : acosh64 t = none := by
  unfold acosh64
  exact if_neg (not_le.mpr h)

theorem wallO_key : wallO.distance_to_closest_point = some 0 := by
  simp [wallO, HyperWall.distance_to_closest_point,
    Hyperpoint.distance_to_origin, Hyperpoint.new_with_z, acosh64_one, f64min]

theorem wallO2_key : wallO2.distance_to_closest_point = some 0 := by
  simp [wallO2, HyperWall.distance_to_closest_point,
    Hyperpoint.distance_to_origin, Hyperpoint.new_with_z, acosh64_one, f64min]

theorem wallNaN_key : wallNaN.distance_to_closest_point = none := by
  simp [wallNaN, HyperWall.distance_to_closest_point,
    Hyperpoint.distance_to_origin, Hyperpoint.new_with_z,
    acosh64_of_lt_one one_pos, f64min]

/-- Claim C3: `minkowski_dot(a, b)` computes `a.x*b.x + a.y*b.y - a.z*b.z`,
and this value is exactly the negative of the `acosh` argument
`z*z' - y*y' - x*x'` computed inside `distance_to(a, b)`; moreover
`distance_to` is `acosh` of that argument. -/
theorem minkowski_dot_neg_of_distance_arg (a b : Hyperpoint) :
    Hyperpoint.minkowski_dot a b = a.x * b.x + a.y * b.y - a.z * b.z ∧
    Hyperpoint.minkowski_dot a b = -(Hyperpoint.distanceArg a b) ∧
    Hyperpoint.distance_to a b = acosh64 (Hyperpoint.distanceArg a b) := by
  refine ⟨rfl, ?_, rfl⟩
  simp only [Hyperpoint.minkowski_dot, Hyperpoint.distanceArg]
  ring

/-- Claim C6: for every wall and every angle, `intersection` fails
unconditionally (the `todo!()` stub panics, modelled by the outer `none`);
it never returns a value, so no call ever yields `Some(_)` or `None`. -/
theorem intersection_always_panics (w : HyperWall) (angle : ℝ) :
    HyperWall.intersection w angle = none ∧
    ∀ r : Option ℝ, HyperWall.intersection w angle ≠ some r := by
  exact ⟨rfl, fun r h => Option.noConfusion h⟩

/-- Claim C7: `new(x, y)` returns `(x, y, sqrt (1 + x^2 + y^2))`; the
expression under the square root is never negative, and the returned `z`
satisfies `x^2 + y^2 - z^2 = -1` (exactly, in the real-number model). -/
theorem new_on_hyperboloid (x y : ℝ) :
    Hyperpoint.new x y =
      Hyperpoint.new_with_z x y (Real.sqrt (1 + x ^ 2 + y ^ 2)) ∧
    0 ≤ 1 + x ^ 2 + y ^ 2 ∧
    (Hyperpoint.new x y).x ^ 2 + (Hyperpoint.new x y).y ^ 2 -
      (Hyperpoint.new x y).z ^ 2 = -1 := by
  have hnn : 0 ≤ 1 + x ^ 2 + y ^ 2 := by positivity
  refine ⟨rfl, hnn, ?_⟩
  simp only [Hyperpoint.new]
  rw [Real.sq_sqrt hnn]
  ring

/-- Claim C8: `distance_to` is symmetric: `distance_to(a, b)` equals
`distance_to(b, a)`, and already the computed `acosh` arguments are
equal. -/
theorem distance_to_symm (a b : Hyperpoint) :
    Hyperpoint.distance_to a b = Hyperpoint.distance_to b a ∧
    Hyperpoint.distanceArg a b = Hyperpoint.distanceArg b a := by
  have harg : Hyperpoint.distanceArg a b = Hyperpoint.distanceArg b a := by
    simp only [Hyperpoint.distanceArg]
    ring
  exact ⟨by simp only [Hyperpoint.distance_to, harg], harg⟩

/-- Claim C9: `rotate(p, a)` leaves the `z` coordinate unchanged (the
rotation matrix about the z axis has third row `(0, 0, 1)`), so
`distance_to_origin`, which reads only `z`, is invariant under `rotate`. -/
theorem rotate_preserves_z (p : Hyperpoint) (a : ℝ) :
    (Hyperpoint.rotate p a).z = p.z ∧
    (Hyperpoint.rotate p a).distance_to_origin = p.distance_to_origin := by
  have hz : (Hyperpoint.rotate p a).z = p.z := by
    simp only [Hyperpoint.rotate, Matrix3.apply]
    ring
  exact ⟨hz, by simp only [Hyperpoint.distance_to_origin, hz]⟩

/-- Claim C4: for a Poincare-disk point `(u, v)` with
`n = u^2 + v^2 < 1`, where `n` is the external `minkowski_dot` of the
point with itself, the conversion to `Hyperpoint` yields exactly
`(2u/(1-n), 2v/(1-n), (1+n)/(1-n))`. -/
theorem fromPoincare_coords (u v : ℝ) (_h : u ^ 2 + v ^ 2 < 1) :
    PoincarePoint.minkowski_dot ⟨u, v⟩ ⟨u, v⟩ = u ^ 2 + v ^ 2 ∧
    Hyperpoint.fromPoincare ⟨u, v⟩ =
      Hyperpoint.new_with_z (2 * u / (1 - (u ^ 2 + v ^ 2)))
        (2 * v / (1 - (u ^ 2 + v ^ 2)))
        ((1 + (u ^ 2 + v ^ 2)) / (1 - (u ^ 2 + v ^ 2))) := by
  constructor
  · simp only [PoincarePoint.minkowski_dot]
    ring
  · simp only [Hyperpoint.fromPoincare, Hyperpoint.new_with_z,
      PoincarePoint.minkowski_dot]
    ext <;> · simp only [] ; ring_nf

/-- Witness for C4: the Poincare point (1/2, 0) has n = 1/4 < 1 and
converts to (4/3, 0, 5/3), the spec's concrete scenario. -/
theorem fromPoincare_coords_witness :
    ((1 : ℝ) / 2) ^ 2 + (0 : ℝ) ^ 2 < 1 ∧
    Hyperpoint.fromPoincare ⟨1 / 2, 0⟩ =
      Hyperpoint.new_with_z (4 / 3) 0 (5 / 3) := by
  refine ⟨by norm_num, ?_⟩
  have h := (fromPoincare_coords (1 / 2) 0 (by norm_num)).2
  rw [h]
  norm_num [Hyperpoint.new_with_z]

/-- Claim C2: `Ord::cmp` on walls panics (modelled: returns `none`)
exactly when a `distance_to_closest_point` key is NaN; with both keys
non-NaN it never panics and returns the ascending numeric order of the
two keys (`fcmp`, which is `lt`/`eq`/`gt` by numeric comparison). -/
theorem hyperWall_cmp_spec (a b : HyperWall) :
    ((a.distance_to_closest_point = none ∨
        b.distance_to_closest_point = none) →
      HyperWall.cmp a b = none) ∧
    (∀ ka kb : ℝ, a.distance_to_closest_point = some ka →
      b.distance_to_closest_point = some kb →
      HyperWall.cmp a b = some (fcmp ka kb) ∧ HyperWall.cmp a b ≠ none) ∧
    (∀ ka kb : ℝ, (ka < kb → fcmp ka kb = Ordering.lt) ∧
      (ka = kb → fcmp ka kb = Ordering.eq) ∧
      (kb < ka → fcmp ka kb = Ordering.gt)) := by
  refine ⟨?_, ?_, ?_⟩
  · intro h
    unfold HyperWall.cmp HyperWall.pcmp
    rcases h with h | h
    · rw [h]
      cases b.distance_to_closest_point <;> rfl
    · rw [h]
      cases a.distance_to_closest_point <;> rfl
  · intro ka kb ha hb
    unfold HyperWall.cmp HyperWall.pcmp
    rw [ha, hb]
    exact ⟨rfl, by simp [f64pcmp]⟩
  · intro ka kb
    refine ⟨fun h => ?_, fun h => ?_, fun h => ?_⟩
    · simp [fcmp, h]
    · simp [fcmp, h]
    · have h1 : ¬ ka < kb := lt_asymm h
      have h2 : ka ≠ kb := ne_of_gt h
      simp [fcmp, h1, h2]

/-- Witness for C2: two walls with keys 0 and 0 compare without panic to
`Equal`; a wall with a NaN key makes `cmp` panic (`none`). -/
theorem hyperWall_cmp_spec_witness :
    HyperWall.cmp wallO wallO2 = some Ordering.eq ∧
    HyperWall.cmp wallNaN wallO = none := by
  constructor
  · have h := ((hyperWall_cmp_spec wallO wallO2).2.1 0 0 wallO_key
      wallO2_key).1
    rw [h, show fcmp (0 : ℝ) 0 = Ordering.eq by simp [fcmp]]
  · exact (hyperWall_cmp_spec wallNaN wallO).1 (Or.inl wallNaN_key)

/-- Claim C5: `HyperWall` equality and ordering are determined entirely
by the `distance_to_closest_point` key: with non-NaN keys, `eq` holds iff
the keys are equal (whatever the endpoints and colors), and `partial_cmp`
orders ascending by key; a NaN key makes `eq` false. -/
theorem hyperWall_order_by_key (a b : HyperWall) :
    (∀ ka kb : ℝ, a.distance_to_closest_point = some ka →
      b.distance_to_closest_point = some kb →
      ((HyperWall.beq a b = true ↔ ka = kb) ∧
       (ka < kb → HyperWall.pcmp a b = some Ordering.lt) ∧
       (ka = kb → HyperWall.pcmp a b = some Ordering.eq) ∧
       (kb < ka → HyperWall.pcmp a b = some Ordering.gt))) ∧
    ((a.distance_to_closest_point = none ∨
        b.distance_to_closest_point = none) →
      HyperWall.beq a b = false) := by
  constructor
  · intro ka kb ha hb
    unfold HyperWall.beq HyperWall.pcmp
    rw [ha, hb]
    refine ⟨?_, fun h => ?_, fun h => ?_, fun h => ?_⟩
    · by_cases hk : ka = kb <;> simp [f64eq, hk]
    · simp [f64pcmp, fcmp, h]
    · simp [f64pcmp, fcmp, h]
    · have h1 : ¬ ka < kb := lt_asymm h
      have h2 : ka ≠ kb := ne_of_gt h
      simp [f64pcmp, fcmp, h1, h2]
  · intro h
    unfold HyperWall.beq
    rcases h with h | h
    · rw [h]
      cases b.distance_to_closest_point <;> rfl
    · rw [h]
      cases a.distance_to_closest_point <;> rfl

/-- Witness for C5: `wallO` and `wallO2` have different endpoints and
different colors but the same key 0, and they compare equal. -/
theorem hyperWall_order_by_key_witness :
    wallO.hEnd.x ≠ wallO2.hEnd.x ∧ wallO.color ≠ wallO2.color ∧
    HyperWall.beq wallO wallO2 = true := by
  refine ⟨by norm_num [wallO, wallO2, Hyperpoint.new_with_z],
    by simp [wallO, wallO2], ?_⟩
  exact ((hyperWall_order_by_key wallO wallO2).1 0 0 wallO_key
    wallO2_key).1.mpr rfl

/-- Claim C10: whenever a wall's `distance_to_closest_point` key is NaN,
`PartialEq::eq(w, w)` returns false, so `==` on `HyperWall` is not
reflexive despite the `Eq` marker implementation. -/
theorem hyperWall_eq_not_reflexive (w : HyperWall)
    (h : w.distance_to_closest_point = none) :
    HyperWall.beq w w = false := by
  unfold HyperWall.beq
  rw [h]
  rfl

/-- Witness for C10: the wall with both endpoints at (0, 0, 0) has a NaN
key and is unequal to itself. -/
theorem hyperWall_eq_not_reflexive_witness :
    HyperWall.beq wallNaN wallNaN = false :=
  hyperWall_eq_not_reflexive wallNaN wallNaN_key

/-- Counterexample to claim C1: at p = (0, 0, 1) and dx = dy = 1,
`translate` does NOT equal the y-boost by -dy applied after the x-boost
by dx: the code multiplies `translation1 * translation2` and applies the
product, which applies the y-boost first. -/
theorem translate_not_yboost_after_xboost :
    Hyperpoint.translate ⟨0, 0, 1⟩ 1 1 ≠
      (yboostMat (-1)).apply ((xboostMat 1).apply ⟨0, 0, 1⟩) := by
  intro h
  have hx := congrArg Hyperpoint.x h
  simp only [Hyperpoint.translate, xboostMat, yboostMat, Matrix3.mul,
    Matrix3.apply] at hx
  rw [Real.cosh_neg] at hx
  ring_nf at hx
  have hs : 0 < Real.sinh 1 := Real.sinh_pos_iff.mpr one_pos
  have hc : 1 < Real.cosh 1 := Real.one_lt_cosh.mpr one_ne_zero
  nlinarith [hx, hs, hc]

/-- Claim C1 as amended: `translate(p, dx, dy)` equals the x-boost by dx
applied AFTER the y-boost by -dy (the opposite application order to the
claim): the product matrix is XBoost(dx) * YBoost(-dy), so the y-boost
acts on p first. -/
theorem translate_is_xboost_after_yboost (p : Hyperpoint) (dx dy : ℝ) :
    Hyperpoint.translate p dx dy =
      (xboostMat dx).apply ((yboostMat (-dy)).apply p) := by
  ext <;>
    · simp only [Hyperpoint.translate, xboostMat, yboostMat, Matrix3.mul,
        Matrix3.apply]
      ring

end
